import Mathlib

/-!
Verification of the incremental document-indexing and retrieval-validation
pipeline of the AI Doc Assistant repository.  The Python sources
(utils.py, analysis.py, main.py) are shallowly embedded as executable Lean
definitions; external library calls (MD5 hashing, the langchain text
splitter, per-format text extraction) are abstracted as function
parameters, exactly at the boundary where the code calls them.
-/

namespace AIDoc

/-! ## Python string primitives used by the pipeline -/

/-- Whitespace characters recognised by the Python str.split and str.strip
    with no arguments (ASCII fragment). -/
def isPySpace (c : Char) : Bool :=
  c == ' ' || c == '\t' || c == '\n' || c == '\r' || c == Char.ofNat 11 || c == Char.ofNat 12

/-- Python str.lower, ASCII fragment. -/
def pyLower (s : String) : String :=
  String.mk (s.toList.map Char.toLower)

/-- Worker for pySplit: splits a character list on whitespace runs,
    dropping empty pieces, accumulating the current word reversed. -/
def splitAux : List Char → List Char → List (List Char)
  | [], acc => if acc.isEmpty then [] else [acc.reverse]
  | c :: cs, acc =>
    if isPySpace c then
      if acc.isEmpty then splitAux cs [] else acc.reverse :: splitAux cs []
    else splitAux cs (c :: acc)

/-- Python str.split with no arguments: split on whitespace runs, no
    empty words. -/
def pySplit (s : String) : List String :=
  (splitAux s.toList []).map String.mk

/-- The lowercased whitespace-separated words of a string, as used for
    both the query and the chunk texts in validate_chunk_relevance. -/
def pyWords (s : String) : List String :=
  pySplit (pyLower s)

/-- Python str.strip with no arguments: remove leading and trailing
    whitespace. -/
def pyStrip (s : String) : String :=
  String.mk (((s.toList.dropWhile (fun c => isPySpace c)).reverse.dropWhile
    (fun c => isPySpace c)).reverse)

/-- Python substring membership test, needle in haystack. -/
def pyContains (hay sub : String) : Bool :=
  hay.toList.tails.any (fun t => sub.toList.isPrefixOf t)

/-! ## RetrievalGate: analysis.py, validate_chunk_relevance -/

/-- A langchain Document as produced by the chunking engine and stored in
    the vector index: page content plus the enhanced metadata stamped in
    create_optimized_chunks_for_large_docs (utils.py). -/
structure Chunk where
  page_content : String
  source : String
  file_path : String
  file_type : String
  folder : String
  chunk_type : String
  chunk_index : Nat
  total_chunks : Nat
  doc_size_category : String
  chunk_size : Nat
deriving DecidableEq

/-- The fixed stop-word set of validate_chunk_relevance (analysis.py). -/
def stop_words : List String :=
  ["the", "a", "an", "and", "or", "but", "in", "on", "at", "to", "for",
   "of", "with", "by", "is", "are", "was", "were", "how", "what", "when",
   "where", "why", "do", "does", "did", "can", "will", "would", "should"]

/-- meaningful_query_words = set(query.lower().split()) - stop_words.
    The deduplicated word list models the Python set; its length is the
    set cardinality. -/
def meaningfulWords (query : String) : List String :=
  (pyWords query).dedup.filter (fun w => decide (w ∉ stop_words))

/-- Cardinality of meaningful_query_words.intersection(chunk_words),
    with meaningful already deduplicated. -/
def overlapCount (meaningful : List String) (text : String) : Nat :=
  (meaningful.filter (fun w => decide (w ∈ pyWords text))).length

/-- The per-chunk test of validate_chunk_relevance:
    overlap_ratio >= threshold, with exact rational arithmetic standing
    for the Python float division. -/
def chunkRelevant (meaningful : List String) (threshold : ℚ) (c : Chunk) : Bool :=
  decide (threshold ≤ (overlapCount meaningful c.page_content : ℚ) / (meaningful.length : ℚ))

/-- analysis.py validate_chunk_relevance: empty chunk lists are rejected
    outright; a query with no meaningful words is accepted; otherwise some
    chunk must reach the overlap-ratio threshold. -/
def validate_chunk_relevance (query : String) (chunks : List Chunk) (threshold : ℚ) : Bool :=
  if chunks.isEmpty then false
  else
    let meaningful := meaningfulWords query
    if meaningful.isEmpty then true
    else chunks.any (chunkRelevant meaningful threshold)

/-- The retrieval gate exactly as the specification describes it (no
    empty-chunk-list guard): accept when there are no meaningful terms,
    otherwise accept iff some chunk reaches the overlap threshold.  Kept
    separate from validate_chunk_relevance, which is translated from the
    code, so the two can be compared. -/
def gateDescribed (query : String) (chunks : List Chunk) (threshold : ℚ) : Bool :=
  let meaningful := meaningfulWords query
  if meaningful.isEmpty then true
  else chunks.any (chunkRelevant meaningful threshold)

/-! ## Query rewriting: analysis.py, enhance_query_for_better_retrieval -/

/-- any(word in question_lower for word in ws). -/
def mentionsAny (question_lower : String) (ws : List String) : Bool :=
  ws.any (fun w => pyContains question_lower w)

/-- First enhancement rule of enhance_query_for_better_retrieval. -/
def postTrigger (question_lower : String) : Bool :=
  mentionsAny question_lower ["after", "post", "following"] && !(pyContains question_lower "incident")

/-- Second enhancement rule of enhance_query_for_better_retrieval. -/
def investTrigger (question_lower : String) : Bool :=
  mentionsAny question_lower ["investigate", "analysis", "review"] && !(pyContains question_lower "investigation")

/-- analysis.py enhance_query_for_better_retrieval: collect candidate
    terms from the two rules, then append only the first candidate, or
    return the question unchanged when no rule fires. -/
def enhance_query_for_better_retrieval (question : String) : String :=
  let question_lower := pyLower question
  let enhanced_terms :=
    (if postTrigger question_lower then ["post-incident"] else []) ++
    (if investTrigger question_lower then ["investigation"] else [])
  match enhanced_terms with
  | [] => question
  | t :: _ => question ++ " " ++ t

/-! ## Chat handler: main.py, answer path -/

/-- The fixed refusal string of the chat handler. -/
def no_related_info : String := "No related information is present in the document."

/-- The answer-selection and chunk-display logic of the main.py chat
    handler: the assistant response is the fixed refusal string when
    retrieval returned no chunks, or when strict mode is on and the gate
    (threshold 0.25, original user input) rejects; the chunk list shown
    and logged alongside is always the retrieved source_documents list. -/
def chat_handler (strict_mode : Bool) (user_input : String) (answer : String)
    (source_documents : List Chunk) : String × List Chunk :=
  if !source_documents.isEmpty then
    if strict_mode then
      if !(validate_chunk_relevance user_input source_documents ((1 : ℚ)/4)) then
        (no_related_info, source_documents)
      else (answer, source_documents)
    else (answer, source_documents)
  else (no_related_info, source_documents)

/-! ## Helper lemmas about the gate arithmetic -/

theorem overlapCount_eq_zero (m : List String) (t : String)
    (h : ∀ w ∈ m, w ∉ pyWords t) : overlapCount m t = 0 := by
  unfold overlapCount
  rw [List.length_eq_zero, List.filter_eq_nil_iff]
  intro w hw
  simpa using h w hw

theorem one_le_overlapCount (m : List String) (t : String) (w : String)
    (hw : w ∈ m) (hmem : w ∈ pyWords t) : 1 ≤ overlapCount m t := by
  unfold overlapCount
  have : w ∈ m.filter (fun v => decide (v ∈ pyWords t)) :=
    List.mem_filter.mpr ⟨hw, by simpa using hmem⟩
  exact List.length_pos.mpr (List.ne_nil_of_mem this)

theorem chunkRelevant_false_of_zero (m : List String) (θ : ℚ) (c : Chunk)
    (hθ : 0 < θ) (h : overlapCount m c.page_content = 0) :
    chunkRelevant m θ c = false := by
  unfold chunkRelevant
  rw [h]
  simp only [Nat.cast_zero, zero_div, decide_eq_false_iff_not]
  exact not_le.mpr hθ

theorem chunkRelevant_quarter_true (c : Chunk)
    (h : 1 ≤ overlapCount ["pass", "ticket"] c.page_content) :
    chunkRelevant ["pass", "ticket"] ((1 : ℚ)/4) c = true := by
  unfold chunkRelevant
  rw [decide_eq_true_iff]
  have hk : (1 : ℚ) ≤ (overlapCount ["pass", "ticket"] c.page_content : ℚ) := by
    exact_mod_cast h
  have hlen : ((["pass", "ticket"] : List String).length : ℚ) = 2 := by norm_num
  rw [hlen]
  calc (1 : ℚ)/4 ≤ 1/2 := by norm_num
    _ ≤ (overlapCount ["pass", "ticket"] c.page_content : ℚ) / 2 :=
        (div_le_div_iff_of_pos_right (by norm_num : (0:ℚ) < 2)).mpr hk

/-! ## Claim theorems about the retrieval gate and the chat handler -/

/-- C10: for every query and threshold, validate on an empty chunk list
    returns false, even when the query is all stop words: the empty-list
    rejection precedes the no-meaningful-terms acceptance. -/
theorem C10_empty_chunk_list_rejected :
    ∀ (query : String) (threshold : ℚ),
      validate_chunk_relevance query [] threshold = false :=
  fun _ _ => rfl

/-- C3 counterexample: on an all-stop-word query with an empty chunk
    list, the gate described by the claim accepts, but the code rejects:
    the claim is false as stated for empty chunk lists. -/
theorem C3_counterexample :
    gateDescribed "what is the" [] ((3 : ℚ)/10) = true ∧
      validate_chunk_relevance "what is the" [] ((3 : ℚ)/10) = false := by
  exact ⟨by decide, rfl⟩

/-- C3 (amended): on every nonempty chunk list, validate_chunk_relevance
    behaves exactly as the claim describes: lowercase whitespace word
    sets, stop-word removal, acceptance on no meaningful terms, otherwise
    acceptance iff some chunk reaches the overlap-ratio threshold. -/
theorem C3_gate_algorithm (query : String) (chunks : List Chunk) (threshold : ℚ)
    (h : chunks ≠ []) :
    validate_chunk_relevance query chunks threshold = gateDescribed query chunks threshold := by
  cases chunks with
  | nil => exact absurd rfl h
  | cons c cs => rfl

/-- Witness for C3_gate_algorithm at a concrete nonempty chunk list. -/
theorem C3_gate_algorithm_witness :
    (([⟨"password spray steps", "r.pdf", "sop_documents/r.pdf", ".pdf", "",
        "standard", 0, 1, "small", 20⟩] : List Chunk) ≠ []) ∧
    validate_chunk_relevance "pass the ticket"
        [⟨"password spray steps", "r.pdf", "sop_documents/r.pdf", ".pdf", "",
          "standard", 0, 1, "small", 20⟩] ((3 : ℚ)/10) =
      gateDescribed "pass the ticket"
        [⟨"password spray steps", "r.pdf", "sop_documents/r.pdf", ".pdf", "",
          "standard", 0, 1, "small", 20⟩] ((3 : ℚ)/10) :=
  ⟨by simp, C3_gate_algorithm _ _ _ (by simp)⟩

/-- A retrieved chunk about password spray, with no standalone word pass
    or ticket. -/
def sprayChunk : Chunk :=
  ⟨"password spray triage steps", "Alert Runbook.pdf", "sop_documents/Alert Runbook.pdf",
   ".pdf", "", "standard", 0, 3, "medium", 27⟩

/-- A retrieved chunk containing pass the ticket as standalone words. -/
def patChunk : Chunk :=
  ⟨"steps to pass the ticket attack", "Alert Runbook.pdf", "sop_documents/Alert Runbook.pdf",
   ".pdf", "", "detailed", 1, 3, "medium", 31⟩

/-- A retrieved chunk containing the literal substring pass the ticket
    only inside larger words. -/
def encompassChunk : Chunk :=
  ⟨"encompass the ticketing system", "Vendor list.pdf", "sop_documents/Vendor list.pdf",
   ".pdf", "", "standard", 0, 1, "small", 30⟩

/-- If no chunk contains the standalone word pass or ticket, the gate
    rejects the query pass the ticket at threshold 0.25. -/
theorem validate_ptt_false (chunks : List Chunk)
    (h : ∀ c ∈ chunks, "pass" ∉ pyWords c.page_content ∧ "ticket" ∉ pyWords c.page_content) :
    validate_chunk_relevance "pass the ticket" chunks ((1 : ℚ)/4) = false := by
  have hm : meaningfulWords "pass the ticket" = ["pass", "ticket"] := by decide
  cases chunks with
  | nil => rfl
  | cons c cs =>
    unfold validate_chunk_relevance
    rw [hm]
    simp only [List.isEmpty_cons, if_false, Bool.false_eq_true, ite_false]
    rw [List.any_eq_false]
    intro x hx
    rw [Bool.not_eq_true]
    refine chunkRelevant_false_of_zero ["pass", "ticket"] ((1 : ℚ)/4) x (by norm_num) ?_
    refine overlapCount_eq_zero _ _ ?_
    intro w hw
    have hx' := h x hx
    simp only [List.mem_cons, List.not_mem_nil, or_false] at hw
    rcases hw with hw | hw
    · rw [hw]; exact hx'.1
    · rw [hw]; exact hx'.2

/-- If some chunk contains the standalone word pass or ticket, the gate
    accepts the query pass the ticket at threshold 0.25. -/
theorem validate_ptt_true (chunks : List Chunk)
    (h : ∃ c ∈ chunks, "pass" ∈ pyWords c.page_content ∨ "ticket" ∈ pyWords c.page_content) :
    validate_chunk_relevance "pass the ticket" chunks ((1 : ℚ)/4) = true := by
  have hm : meaningfulWords "pass the ticket" = ["pass", "ticket"] := by decide
  obtain ⟨c, hc, hw⟩ := h
  cases chunks with
  | nil => cases hc
  | cons a as =>
    unfold validate_chunk_relevance
    rw [hm]
    simp only [List.isEmpty_cons, if_false, Bool.false_eq_true, ite_false]
    rw [List.any_eq_true]
    refine ⟨c, hc, chunkRelevant_quarter_true c ?_⟩
    rcases hw with hw | hw
    · exact one_le_overlapCount _ _ "pass" (by simp) hw
    · exact one_le_overlapCount _ _ "ticket" (by simp) hw

/-- C7 counterexample: a chunk whose text contains the literal substring
    pass the ticket (inside larger words) is still rejected by the gate
    at threshold 0.25, so the substring half of the claim is false as
    stated. -/
theorem C7_counterexample :
    pyContains encompassChunk.page_content "pass the ticket" = true ∧
      validate_chunk_relevance "pass the ticket" [encompassChunk] ((1 : ℚ)/4) = false :=
  ⟨by decide, validate_ptt_false [encompassChunk] (by decide)⟩

/-- C7 (amended): for the query pass the ticket at threshold 0.25, the
    gate rejects when no chunk has pass or ticket as a standalone
    (whitespace-delimited, lowercased) word, and accepts when some chunk
    does; containment as a standalone word, not as a raw substring, is
    what matters. -/
theorem C7_gate_boundary (chunks : List Chunk) :
    ((∀ c ∈ chunks, "pass" ∉ pyWords c.page_content ∧ "ticket" ∉ pyWords c.page_content) →
       validate_chunk_relevance "pass the ticket" chunks ((1 : ℚ)/4) = false) ∧
    ((∃ c ∈ chunks, "pass" ∈ pyWords c.page_content ∨ "ticket" ∈ pyWords c.page_content) →
       validate_chunk_relevance "pass the ticket" chunks ((1 : ℚ)/4) = true) :=
  ⟨validate_ptt_false chunks, validate_ptt_true chunks⟩

/-- Witness for C7_gate_boundary on concrete password-spray-only and
    pass-the-ticket chunk lists. -/
theorem C7_gate_boundary_witness :
    ((∀ c ∈ [sprayChunk], "pass" ∉ pyWords c.page_content ∧ "ticket" ∉ pyWords c.page_content) ∧
       validate_chunk_relevance "pass the ticket" [sprayChunk] ((1 : ℚ)/4) = false) ∧
    ((∃ c ∈ [patChunk], "pass" ∈ pyWords c.page_content ∨ "ticket" ∈ pyWords c.page_content) ∧
       validate_chunk_relevance "pass the ticket" [patChunk] ((1 : ℚ)/4) = true) :=
  ⟨⟨by decide, (C7_gate_boundary [sprayChunk]).1 (by decide)⟩,
   ⟨by decide, (C7_gate_boundary [patChunk]).2 (by decide)⟩⟩

/-- C4 counterexample: when strict mode is on and the gate rejects, the
    handler does return the fixed refusal string, but the chunk list it
    displays and logs alongside is the nonempty retrieved list, not the
    empty list the claim requires. -/
theorem C4_counterexample :
    validate_chunk_relevance "pass the ticket" [sprayChunk] ((1 : ℚ)/4) = false ∧
      chat_handler true "pass the ticket" "Spray guidance." [sprayChunk] =
        (no_related_info, [sprayChunk]) ∧
      ([sprayChunk] : List Chunk) ≠ [] := by
  have hv := validate_ptt_false [sprayChunk] (by decide)
  refine ⟨hv, ?_, by simp⟩
  unfold chat_handler
  rw [hv]
  simp

/-- C4 (amended): the handler answers with the fixed refusal string
    whenever retrieval returned no chunks or the strict-mode gate at
    threshold 0.25 rejects; the chunk list accompanying the answer is
    always the retrieved list itself, hence empty exactly in the
    no-chunks case; the handler is a total function of its inputs. -/
theorem C4_refusal_path (strict : Bool) (user_input answer : String) (docs : List Chunk) :
    (docs = [] → chat_handler strict user_input answer docs = (no_related_info, [])) ∧
    (docs ≠ [] → strict = true →
       validate_chunk_relevance user_input docs ((1 : ℚ)/4) = false →
       chat_handler strict user_input answer docs = (no_related_info, docs)) ∧
    (docs ≠ [] → strict = true →
       validate_chunk_relevance user_input docs ((1 : ℚ)/4) = true →
       chat_handler strict user_input answer docs = (answer, docs)) ∧
    (docs ≠ [] → strict = false →
       chat_handler strict user_input answer docs = (answer, docs)) := by
  refine ⟨?_, ?_, ?_, ?_⟩
  · intro h; subst h; rfl
  · intro hne hs hv
    cases docs with
    | nil => exact absurd rfl hne
    | cons a as =>
      subst hs
      unfold chat_handler
      rw [hv]
      simp
  · intro hne hs hv
    cases docs with
    | nil => exact absurd rfl hne
    | cons a as =>
      subst hs
      unfold chat_handler
      rw [hv]
      simp
  · intro hne hs
    cases docs with
    | nil => exact absurd rfl hne
    | cons a as =>
      subst hs
      unfold chat_handler
      simp

/-- Witness for C4_refusal_path at a concrete rejected retrieval. -/
theorem C4_refusal_path_witness :
    (([sprayChunk] : List Chunk) ≠ []) ∧
      validate_chunk_relevance "pass the ticket" [sprayChunk] ((1 : ℚ)/4) = false ∧
      chat_handler true "pass the ticket" "Spray guidance." [sprayChunk] =
        (no_related_info, [sprayChunk]) :=
  ⟨by simp, validate_ptt_false [sprayChunk] (by decide),
   (C4_refusal_path true "pass the ticket" "Spray guidance." [sprayChunk]).2.1
     (by simp) rfl (validate_ptt_false [sprayChunk] (by decide))⟩

/-- C8: the query rewrite appends the single term post-incident when the
    first rule fires, otherwise appends investigation when the second
    rule fires, otherwise returns the question unchanged; in every case
    at most one term is appended. -/
theorem C8_query_rewrite (question : String) :
    (postTrigger (pyLower question) = true →
       enhance_query_for_better_retrieval question = question ++ " " ++ "post-incident") ∧
    (postTrigger (pyLower question) = false → investTrigger (pyLower question) = true →
       enhance_query_for_better_retrieval question = question ++ " " ++ "investigation") ∧
    (postTrigger (pyLower question) = false → investTrigger (pyLower question) = false →
       enhance_query_for_better_retrieval question = question) ∧
    (enhance_query_for_better_retrieval question = question ∨
       enhance_query_for_better_retrieval question = question ++ " " ++ "post-incident" ∨
       enhance_query_for_better_retrieval question = question ++ " " ++ "investigation") := by
  refine ⟨?_, ?_, ?_, ?_⟩
  · intro hp
    cases hi : investTrigger (pyLower question) <;>
      simp [enhance_query_for_better_retrieval, hp, hi]
  · intro hp hi
    simp [enhance_query_for_better_retrieval, hp, hi]
  · intro hp hi
    simp [enhance_query_for_better_retrieval, hp, hi]
  · cases hp : postTrigger (pyLower question) <;>
      cases hi : investTrigger (pyLower question) <;>
      simp [enhance_query_for_better_retrieval, hp, hi]

/-- Witness for C8_query_rewrite: a question mentioning after but not
    incident gains exactly the term post-incident. -/
theorem C8_query_rewrite_witness :
    postTrigger (pyLower "what to do after an attack") = true ∧
      enhance_query_for_better_retrieval "what to do after an attack" =
        "what to do after an attack" ++ " " ++ "post-incident" :=
  ⟨by decide, (C8_query_rewrite "what to do after an attack").1 (by decide)⟩

/-! ## ChunkEngine: utils.py, create_optimized_chunks_for_large_docs

The langchain RecursiveCharacterTextSplitter is an external library; it
is abstracted as a function from its constructor parameters and the
document text to the list of chunk texts.  Everything the repository
itself does (size tiers, parameters, metadata stamping) is embedded. -/

/-- A document as built by the loaders: extracted text plus the metadata
    dict source, file_path, file_type, folder. -/
structure InputDoc where
  page_content : String
  source : String
  file_path : String
  file_type : String
  folder : String
deriving DecidableEq

/-- The constructor arguments of a RecursiveCharacterTextSplitter. -/
structure SplitterParams where
  separators : List String
  chunk_size : Nat
  chunk_overlap : Nat
deriving DecidableEq

/-- Large-document broad tier: 4000 chars, 400 overlap. -/
def largeBroadParams : SplitterParams :=
  ⟨["\n\n\n\n", "\n\n\n", "\n\n", "\n", ". ", ", ", " "], 4000, 400⟩

/-- Large-document detailed tier: 2000 chars, 300 overlap. -/
def largeDetailedParams : SplitterParams :=
  ⟨["\n\n\n", "\n\n", "\n", ". ", ", ", " "], 2000, 300⟩

/-- Large-document specific tier: 1200 chars, 200 overlap. -/
def largeSpecificParams : SplitterParams :=
  ⟨["\n\n", "\n", ". ", ", ", " "], 1200, 200⟩

/-- Medium-document standard tier: 1800 chars, 250 overlap. -/
def mediumStandardParams : SplitterParams :=
  ⟨["\n\n\n", "\n\n", "\n", ". ", ", ", " "], 1800, 250⟩

/-- Medium-document detailed tier: 1000 chars, 150 overlap. -/
def mediumDetailedParams : SplitterParams :=
  ⟨["\n\n", "\n", ". ", ", ", " "], 1000, 150⟩

/-- Small-document splitter: 1000 chars, 150 overlap. -/
def smallStandardParams : SplitterParams :=
  ⟨["\n\n\n", "\n\n", "\n", ". ", "; ", ", ", " "], 1000, 150⟩

/-- Small-document aggressive fallback: 800 chars, 100 overlap, with the
    empty separator as last resort. -/
def smallAggressiveParams : SplitterParams :=
  ⟨["\n", ". ", "; ", ", ", " ", ""], 800, 100⟩

/-- One stamped chunk: the enhanced_metadata dict merged over the
    document metadata, with chunk_size computed from the chunk text. -/
def mkChunk (doc : InputDoc) (category ty : String) (total j : Nat) (t : String) : Chunk :=
  ⟨t, doc.source, doc.file_path, doc.file_type, doc.folder, ty, j, total, category, t.length⟩

/-- The enumerate loop stamping chunks of one tier, carrying the running
    index j and the tier total. -/
def stampFrom (doc : InputDoc) (category ty : String) (total : Nat) :
    Nat → List String → List Chunk
  | _, [] => []
  | j, t :: ts => mkChunk doc category ty total j t :: stampFrom doc category ty total (j + 1) ts

/-- Stamp a whole tier: indices from 0, total = number of chunks in the
    tier. -/
def stampTier (doc : InputDoc) (category ty : String) (texts : List String) : List Chunk :=
  stampFrom doc category ty texts.length 0 texts

/-- The chunk texts used for a small document: re-split aggressively when
    the first pass yields exactly one chunk and the text exceeds 1000
    characters. -/
def smallTierTexts (split : SplitterParams → String → List String) (t : String) : List String :=
  if (split smallStandardParams t).length = 1 ∧ t.length > 1000 then
    split smallAggressiveParams t
  else split smallStandardParams t

/-- The per-document body of create_optimized_chunks_for_large_docs:
    three tiers over 50000 chars, two tiers over 5000, one (possibly
    re-split) tier otherwise. -/
def chunksForDoc (split : SplitterParams → String → List String) (doc : InputDoc) : List Chunk :=
  if doc.page_content.length > 50000 then
    stampTier doc "large" "broad" (split largeBroadParams doc.page_content) ++
    stampTier doc "large" "detailed" (split largeDetailedParams doc.page_content) ++
    stampTier doc "large" "specific" (split largeSpecificParams doc.page_content)
  else if doc.page_content.length > 5000 then
    stampTier doc "medium" "standard" (split mediumStandardParams doc.page_content) ++
    stampTier doc "medium" "detailed" (split mediumDetailedParams doc.page_content)
  else
    stampTier doc "small" "standard" (smallTierTexts split doc.page_content)

/-- utils.py create_optimized_chunks_for_large_docs: all chunks of all
    documents, in document order. -/
def create_optimized_chunks_for_large_docs (split : SplitterParams → String → List String) :
    List InputDoc → List Chunk
  | [] => []
  | d :: rest => chunksForDoc split d ++ create_optimized_chunks_for_large_docs split rest

/-- The doc_size_category stamped for a document. -/
def sizeCategory (doc : InputDoc) : String :=
  if doc.page_content.length > 50000 then "large"
  else if doc.page_content.length > 5000 then "medium"
  else "small"

/-- The (tier name, chunk texts) pairs the engine produces for one
    document. -/
def tiersUsed (split : SplitterParams → String → List String) (doc : InputDoc) :
    List (String × List String) :=
  if doc.page_content.length > 50000 then
    [("broad", split largeBroadParams doc.page_content),
     ("detailed", split largeDetailedParams doc.page_content),
     ("specific", split largeSpecificParams doc.page_content)]
  else if doc.page_content.length > 5000 then
    [("standard", split mediumStandardParams doc.page_content),
     ("detailed", split mediumDetailedParams doc.page_content)]
  else
    [("standard", smallTierTexts split doc.page_content)]

/-- The texts of the chunks carrying a given tier tag. -/
def tierTexts (cs : List Chunk) (ty : String) : List String :=
  (cs.filter (fun c => c.chunk_type == ty)).map (fun c => c.page_content)

/-! ## Chunk engine lemmas -/

theorem filter_stampFrom_self (doc : InputDoc) (cat ty : String) (total : Nat) :
    ∀ (ts : List String) (j : Nat),
      (stampFrom doc cat ty total j ts).filter (fun c => c.chunk_type == ty) =
        stampFrom doc cat ty total j ts := by
  intro ts
  induction ts with
  | nil => intro j; rfl
  | cons t ts ih =>
    intro j
    simp only [stampFrom, List.filter_cons]
    rw [ih (j + 1)]
    simp [mkChunk]

theorem filter_stampFrom_ne (doc : InputDoc) (cat ty ty' : String) (total : Nat)
    (h : ty ≠ ty') :
    ∀ (ts : List String) (j : Nat),
      (stampFrom doc cat ty total j ts).filter (fun c => c.chunk_type == ty') = [] := by
  intro ts
  induction ts with
  | nil => intro j; rfl
  | cons t ts ih =>
    intro j
    simp only [stampFrom, List.filter_cons]
    rw [ih (j + 1)]
    simp [mkChunk, h]

theorem map_pageContent_stampFrom (doc : InputDoc) (cat ty : String) (total : Nat) :
    ∀ (ts : List String) (j : Nat),
      (stampFrom doc cat ty total j ts).map (fun c => c.page_content) = ts := by
  intro ts
  induction ts with
  | nil => intro j; rfl
  | cons t ts ih =>
    intro j
    simp only [stampFrom, List.map_cons]
    rw [ih (j + 1)]
    rfl

theorem tierTexts_stampTier_self (doc : InputDoc) (cat ty : String) (texts : List String) :
    tierTexts (stampTier doc cat ty texts) ty = texts := by
  unfold tierTexts stampTier
  rw [filter_stampFrom_self, map_pageContent_stampFrom]

theorem tierTexts_stampTier_ne (doc : InputDoc) (cat ty ty' : String) (texts : List String)
    (h : ty ≠ ty') : tierTexts (stampTier doc cat ty texts) ty' = [] := by
  unfold tierTexts stampTier
  rw [filter_stampFrom_ne _ _ _ _ _ h]
  rfl

theorem tierTexts_append (A B : List Chunk) (ty : String) :
    tierTexts (A ++ B) ty = tierTexts A ty ++ tierTexts B ty := by
  simp [tierTexts]

theorem mem_stampFrom (doc : InputDoc) (cat ty : String) (total : Nat) :
    ∀ (ts : List String) (j : Nat) (c : Chunk), c ∈ stampFrom doc cat ty total j ts →
      c.source = doc.source ∧ c.file_path = doc.file_path ∧ c.file_type = doc.file_type ∧
      c.folder = doc.folder ∧ c.chunk_type = ty ∧ c.doc_size_category = cat ∧
      c.total_chunks = total ∧ c.chunk_size = c.page_content.length ∧
      j ≤ c.chunk_index ∧ c.chunk_index < j + ts.length ∧
      ts[c.chunk_index - j]? = some c.page_content := by
  intro ts
  induction ts with
  | nil => intro j c hc; cases hc
  | cons t ts ih =>
    intro j c hc
    rcases List.mem_cons.mp hc with hc | hc
    · subst hc
      refine ⟨rfl, rfl, rfl, rfl, rfl, rfl, rfl, rfl, Nat.le_refl j, ?_, ?_⟩
      · simp [mkChunk]
      · simp [mkChunk]
    · obtain ⟨h1, h2, h3, h4, h5, h6, h7, h8, h9, h10, h11⟩ := ih (j + 1) c hc
      refine ⟨h1, h2, h3, h4, h5, h6, h7, h8, by omega, by simp; omega, ?_⟩
      have hj : c.chunk_index - j = (c.chunk_index - (j + 1)) + 1 := by omega
      rw [hj]
      simpa using h11

theorem mem_stampTier (doc : InputDoc) (cat ty : String) (texts : List String) (c : Chunk)
    (hc : c ∈ stampTier doc cat ty texts) :
    c.source = doc.source ∧ c.file_path = doc.file_path ∧ c.file_type = doc.file_type ∧
    c.folder = doc.folder ∧ c.chunk_type = ty ∧ c.doc_size_category = cat ∧
    c.total_chunks = texts.length ∧ c.chunk_size = c.page_content.length ∧
    c.chunk_index < texts.length ∧ texts[c.chunk_index]? = some c.page_content := by
  obtain ⟨h1, h2, h3, h4, h5, h6, h7, h8, h9, h10, h11⟩ :=
    mem_stampFrom doc cat ty texts.length texts 0 c hc
  refine ⟨h1, h2, h3, h4, h5, h6, h7, h8, by omega, ?_⟩
  simpa using h11

/-- C6: the chunk engine is size-tiered exactly as specified: above
    50000 characters, three parallel chunkings at 4000/2000/1200 with
    overlaps 400/300/200 tagged broad, detailed, specific; in
    (5000, 50000], two chunkings at 1800/1000 with overlaps 250/150
    tagged standard, detailed; at most 5000, one chunking at 1000/150
    tagged standard, re-split at 800/100 with finer separators when it
    yields a single chunk for a document longer than 1000 characters. -/
theorem C6_size_tiered_chunking (split : SplitterParams → String → List String)
    (d : InputDoc) :
    (d.page_content.length > 50000 →
       tierTexts (create_optimized_chunks_for_large_docs split [d]) "broad" =
         split largeBroadParams d.page_content ∧
       tierTexts (create_optimized_chunks_for_large_docs split [d]) "detailed" =
         split largeDetailedParams d.page_content ∧
       tierTexts (create_optimized_chunks_for_large_docs split [d]) "specific" =
         split largeSpecificParams d.page_content ∧
       ∀ c ∈ create_optimized_chunks_for_large_docs split [d],
         c.doc_size_category = "large" ∧
         (c.chunk_type = "broad" ∨ c.chunk_type = "detailed" ∨ c.chunk_type = "specific")) ∧
    (5000 < d.page_content.length → d.page_content.length ≤ 50000 →
       tierTexts (create_optimized_chunks_for_large_docs split [d]) "standard" =
         split mediumStandardParams d.page_content ∧
       tierTexts (create_optimized_chunks_for_large_docs split [d]) "detailed" =
         split mediumDetailedParams d.page_content ∧
       ∀ c ∈ create_optimized_chunks_for_large_docs split [d],
         c.doc_size_category = "medium" ∧
         (c.chunk_type = "standard" ∨ c.chunk_type = "detailed")) ∧
    (d.page_content.length ≤ 5000 →
       ((split smallStandardParams d.page_content).length = 1 → d.page_content.length > 1000 →
          tierTexts (create_optimized_chunks_for_large_docs split [d]) "standard" =
            split smallAggressiveParams d.page_content) ∧
       (¬((split smallStandardParams d.page_content).length = 1 ∧ d.page_content.length > 1000) →
          tierTexts (create_optimized_chunks_for_large_docs split [d]) "standard" =
            split smallStandardParams d.page_content) ∧
       ∀ c ∈ create_optimized_chunks_for_large_docs split [d],
         c.doc_size_category = "small" ∧ c.chunk_type = "standard") := by
  have hone : create_optimized_chunks_for_large_docs split [d] = chunksForDoc split d := by
    simp [create_optimized_chunks_for_large_docs]
  refine ⟨?_, ?_, ?_⟩
  · intro h50
    rw [hone]
    unfold chunksForDoc
    rw [if_pos h50]
    refine ⟨?_, ?_, ?_, ?_⟩
    · rw [tierTexts_append, tierTexts_append, tierTexts_stampTier_self,
        tierTexts_stampTier_ne _ _ _ _ _ (by decide),
        tierTexts_stampTier_ne _ _ _ _ _ (by decide), List.append_nil, List.append_nil]
    · rw [tierTexts_append, tierTexts_append, tierTexts_stampTier_self,
        tierTexts_stampTier_ne _ _ _ _ _ (by decide),
        tierTexts_stampTier_ne _ _ _ _ _ (by decide), List.nil_append, List.append_nil]
    · rw [tierTexts_append, tierTexts_append, tierTexts_stampTier_self,
        tierTexts_stampTier_ne _ _ _ _ _ (by decide),
        tierTexts_stampTier_ne _ _ _ _ _ (by decide), List.nil_append, List.nil_append]
    · intro c hc
      rcases List.mem_append.mp hc with hc | hc
      · rcases List.mem_append.mp hc with hc | hc
        · have h := mem_stampTier _ _ _ _ _ hc
          exact ⟨h.2.2.2.2.2.1, Or.inl h.2.2.2.2.1⟩
        · have h := mem_stampTier _ _ _ _ _ hc
          exact ⟨h.2.2.2.2.2.1, Or.inr (Or.inl h.2.2.2.2.1)⟩
      · have h := mem_stampTier _ _ _ _ _ hc
        exact ⟨h.2.2.2.2.2.1, Or.inr (Or.inr h.2.2.2.2.1)⟩
  · intro h5 h50
    rw [hone]
    unfold chunksForDoc
    rw [if_neg (by omega), if_pos h5]
    refine ⟨?_, ?_, ?_⟩
    · rw [tierTexts_append, tierTexts_stampTier_self,
        tierTexts_stampTier_ne _ _ _ _ _ (by decide), List.append_nil]
    · rw [tierTexts_append, tierTexts_stampTier_self,
        tierTexts_stampTier_ne _ _ _ _ _ (by decide), List.nil_append]
    · intro c hc
      rcases List.mem_append.mp hc with hc | hc
      · have h := mem_stampTier _ _ _ _ _ hc
        exact ⟨h.2.2.2.2.2.1, Or.inl h.2.2.2.2.1⟩
      · have h := mem_stampTier _ _ _ _ _ hc
        exact ⟨h.2.2.2.2.2.1, Or.inr h.2.2.2.2.1⟩
  · intro h5
    rw [hone]
    unfold chunksForDoc
    rw [if_neg (by omega), if_neg (by omega)]
    refine ⟨?_, ?_, ?_⟩
    · intro hlone hlong
      rw [tierTexts_stampTier_self]
      unfold smallTierTexts
      rw [if_pos ⟨hlone, hlong⟩]
    · intro hnot
      rw [tierTexts_stampTier_self]
      unfold smallTierTexts
      rw [if_neg hnot]
    · intro c hc
      have h := mem_stampTier _ _ _ _ _ hc
      exact ⟨h.2.2.2.2.2.1, h.2.2.2.2.1⟩

/-- A trivial splitter standing in for the external library in concrete
    witnesses: the whole text as one chunk. -/
def witSplit : SplitterParams → String → List String := fun _ s => [s]

/-- A concrete medium-size document (5001 characters). -/
def medDoc : InputDoc :=
  ⟨String.mk (List.replicate 5001 'a'), "med.txt", "sop_documents/med.txt", ".txt", ""⟩

/-- Witness for C6_size_tiered_chunking on a concrete medium document. -/
theorem C6_size_tiered_chunking_witness :
    5000 < medDoc.page_content.length ∧ medDoc.page_content.length ≤ 50000 ∧
      tierTexts (create_optimized_chunks_for_large_docs witSplit [medDoc]) "standard" =
        [medDoc.page_content] := by
  have hlen : medDoc.page_content.length = 5001 := List.length_replicate 5001 'a'
  refine ⟨by omega, by omega, ?_⟩
  exact ((C6_size_tiered_chunking witSplit medDoc).2.1 (by omega) (by omega)).1

/-- Everything C9 asserts, for the chunks of a single document. -/
theorem chunksForDoc_provenance (split : SplitterParams → String → List String)
    (d : InputDoc) (c : Chunk) (hc : c ∈ chunksForDoc split d) :
    c.source = d.source ∧ c.file_path = d.file_path ∧ c.folder = d.folder ∧
    c.doc_size_category = sizeCategory d ∧ c.chunk_size = c.page_content.length ∧
    ∃ texts, (c.chunk_type, texts) ∈ tiersUsed split d ∧ c.total_chunks = texts.length ∧
      c.chunk_index < texts.length ∧ texts[c.chunk_index]? = some c.page_content := by
  unfold chunksForDoc at hc
  by_cases h50 : d.page_content.length > 50000
  · rw [if_pos h50] at hc
    unfold sizeCategory tiersUsed
    rw [if_pos h50, if_pos h50]
    rcases List.mem_append.mp hc with hc | hc
    · rcases List.mem_append.mp hc with hc | hc
      · obtain ⟨h1, h2, h3, h4, h5, h6, h7, h8, h9, h10⟩ := mem_stampTier _ _ _ _ _ hc
        exact ⟨h1, h2, h4, h6, h8, split largeBroadParams d.page_content,
          by rw [h5]; simp, h7, h9, h10⟩
      · obtain ⟨h1, h2, h3, h4, h5, h6, h7, h8, h9, h10⟩ := mem_stampTier _ _ _ _ _ hc
        exact ⟨h1, h2, h4, h6, h8, split largeDetailedParams d.page_content,
          by rw [h5]; simp, h7, h9, h10⟩
    · obtain ⟨h1, h2, h3, h4, h5, h6, h7, h8, h9, h10⟩ := mem_stampTier _ _ _ _ _ hc
      exact ⟨h1, h2, h4, h6, h8, split largeSpecificParams d.page_content,
        by rw [h5]; simp, h7, h9, h10⟩
  · rw [if_neg h50] at hc
    by_cases h5k : d.page_content.length > 5000
    · rw [if_pos h5k] at hc
      unfold sizeCategory tiersUsed
      rw [if_neg h50, if_neg h50, if_pos h5k, if_pos h5k]
      rcases List.mem_append.mp hc with hc | hc
      · obtain ⟨h1, h2, h3, h4, h5, h6, h7, h8, h9, h10⟩ := mem_stampTier _ _ _ _ _ hc
        exact ⟨h1, h2, h4, h6, h8, split mediumStandardParams d.page_content,
          by rw [h5]; simp, h7, h9, h10⟩
      · obtain ⟨h1, h2, h3, h4, h5, h6, h7, h8, h9, h10⟩ := mem_stampTier _ _ _ _ _ hc
        exact ⟨h1, h2, h4, h6, h8, split mediumDetailedParams d.page_content,
          by rw [h5]; simp, h7, h9, h10⟩
    · rw [if_neg h5k] at hc
      unfold sizeCategory tiersUsed
      rw [if_neg h50, if_neg h50, if_neg h5k, if_neg h5k]
      obtain ⟨h1, h2, h3, h4, h5, h6, h7, h8, h9, h10⟩ := mem_stampTier _ _ _ _ _ hc
      exact ⟨h1, h2, h4, h6, h8, smallTierTexts split d.page_content,
        by rw [h5]; simp, h7, h9, h10⟩

/-- C9: every chunk the engine produces, in every tier and for every
    input document, carries the source document name, path and folder,
    the document size category, its own character length, its tier tag,
    its index within the tier, and the total chunk count of that tier. -/
theorem C9_chunk_provenance (split : SplitterParams → String → List String)
    (docs : List InputDoc) (c : Chunk)
    (hc : c ∈ create_optimized_chunks_for_large_docs split docs) :
    ∃ d ∈ docs, c.source = d.source ∧ c.file_path = d.file_path ∧ c.folder = d.folder ∧
      c.doc_size_category = sizeCategory d ∧ c.chunk_size = c.page_content.length ∧
      ∃ texts, (c.chunk_type, texts) ∈ tiersUsed split d ∧ c.total_chunks = texts.length ∧
        c.chunk_index < texts.length ∧ texts[c.chunk_index]? = some c.page_content := by
  induction docs with
  | nil => cases hc
  | cons d rest ih =>
    rcases List.mem_append.mp hc with hd | hrest
    · exact ⟨d, List.mem_cons_self d rest, chunksForDoc_provenance split d c hd⟩
    · obtain ⟨d', hd', hrest'⟩ := ih hrest
      exact ⟨d', List.mem_cons_of_mem d hd', hrest'⟩

/-- A concrete small document for the C9 witness. -/
def smallDoc : InputDoc :=
  ⟨"incident response basics", "a.txt", "sop_documents/a.txt", ".txt", ""⟩

/-- Witness for C9_chunk_provenance on the single chunk produced for a
    concrete small document by the trivial splitter. -/
theorem C9_chunk_provenance_witness :
    mkChunk smallDoc "small" "standard" 1 0 smallDoc.page_content ∈
        create_optimized_chunks_for_large_docs witSplit [smallDoc] ∧
      ∃ d ∈ [smallDoc],
        (mkChunk smallDoc "small" "standard" 1 0 smallDoc.page_content).source = d.source ∧
        (mkChunk smallDoc "small" "standard" 1 0 smallDoc.page_content).file_path = d.file_path ∧
        (mkChunk smallDoc "small" "standard" 1 0 smallDoc.page_content).folder = d.folder ∧
        (mkChunk smallDoc "small" "standard" 1 0 smallDoc.page_content).doc_size_category =
          sizeCategory d ∧
        (mkChunk smallDoc "small" "standard" 1 0 smallDoc.page_content).chunk_size =
          (mkChunk smallDoc "small" "standard" 1 0 smallDoc.page_content).page_content.length ∧
        ∃ texts,
          ((mkChunk smallDoc "small" "standard" 1 0 smallDoc.page_content).chunk_type, texts) ∈
            tiersUsed witSplit d ∧
          (mkChunk smallDoc "small" "standard" 1 0 smallDoc.page_content).total_chunks =
            texts.length ∧
          (mkChunk smallDoc "small" "standard" 1 0 smallDoc.page_content).chunk_index <
            texts.length ∧
          texts[(mkChunk smallDoc "small" "standard" 1 0 smallDoc.page_content).chunk_index]? =
            some (mkChunk smallDoc "small" "standard" 1 0 smallDoc.page_content).page_content :=
  ⟨by decide, C9_chunk_provenance witSplit [smallDoc] _ (by decide)⟩

/-! ## CorpusIndex and sync: utils.py

load_documents_from_folder_incremental and process_uploaded_files are
embedded as pure functions.  The MD5 digest (hashlib), the per-format
text extractor and the text splitter are external library calls and
appear as function parameters; the folder walk is represented by the
list of files it yields.  The vector store is the list of chunks it
holds. -/

/-- One ledger record of processed_files_info.json. -/
structure LedgerEntry where
  hash : Nat
  name : String
  extension : String
  folder : String
deriving DecidableEq

/-- One file yielded by the os.walk over the documents folder: joined
    path, file name, folder relative to the corpus root, byte content,
    and modification time (which the pipeline never reads). -/
structure DiskFile where
  path : String
  name : String
  relFolder : String
  content : List Nat
  mtime : Nat
deriving DecidableEq

/-- Scan for the extension part of os.path.splitext: the suffix from the
    last dot that has some non-dot character before it. -/
def extAux : List Char → Bool → Option (List Char) → List Char
  | [], _, best => best.getD []
  | c :: rest, seenNonDot, best =>
    if c = '.' then extAux rest seenNonDot (if seenNonDot then some (c :: rest) else best)
    else extAux rest true best

/-- os.path.splitext(name)[1].lower() for a bare file name. -/
def fileExt (name : String) : String :=
  pyLower (String.mk (extAux name.toList false none))

/-- The supported extensions of the folder walk (utils.py). -/
def supported_extensions : List String :=
  [".pdf", ".docx", ".csv", ".xlsx", ".txt"]

/-- The current_files entry built for one walked file: content hash,
    name, lowercased extension, relative folder. -/
def mkEntry (hash : List Nat → Nat) (f : DiskFile) : LedgerEntry :=
  ⟨hash f.content, f.name, fileExt f.name, f.relFolder⟩

/-- Lookup in a ledger represented as an association list (first match,
    as in a JSON object / Python dict with unique keys). -/
def lookupLedger : List (String × LedgerEntry) → String → Option LedgerEntry
  | [], _ => none
  | kv :: rest, p => if kv.1 = p then some kv.2 else lookupLedger rest p

/-- Python dict assignment d[k] = v: overwrite in place or append. -/
def dictInsert : List (String × LedgerEntry) → String → LedgerEntry → List (String × LedgerEntry)
  | [], k, v => [(k, v)]
  | kv :: rest, k, v => if kv.1 = k then (k, v) :: rest else kv :: dictInsert rest k v

/-- Python dict.update(u): assign every pair of u in order. -/
def dictUpdate (d u : List (String × LedgerEntry)) : List (String × LedgerEntry) :=
  u.foldl (fun acc kv => dictInsert acc kv.1 kv.2) d

/-- The current_files dict of the folder walk: every walked file with a
    supported extension, with its content hash and metadata. -/
def currentFilesOf (hash : List Nat → Nat) : List DiskFile → List (String × LedgerEntry)
  | [] => []
  | f :: rest =>
    if fileExt f.name ∈ supported_extensions then
      (f.path, mkEntry hash f) :: currentFilesOf hash rest
    else currentFilesOf hash rest

/-- The new-or-changed test of the sync (utils.py line 288): path absent
    from the ledger, or recorded hash differs from the current hash. -/
def needsReprocess (ledger : List (String × LedgerEntry)) (p : String) (e : LedgerEntry) : Bool :=
  match lookupLedger ledger p with
  | none => true
  | some e0 => e0.hash != e.hash

/-- new_or_changed_files: the current files selected for reprocessing,
    in walk order. -/
def selectNewOrChanged (ledger : List (String × LedgerEntry)) :
    List (String × LedgerEntry) → List String
  | [] => []
  | kv :: rest =>
    if needsReprocess ledger kv.1 kv.2 then kv.1 :: selectNewOrChanged ledger rest
    else selectNewOrChanged ledger rest

/-- The Document built for a successfully extracted file. -/
def mkInputDoc (f : DiskFile) (t : String) : InputDoc :=
  ⟨t, f.name, f.path, fileExt f.name, f.relFolder⟩

/-- The extraction loop over new_or_changed_files: files whose extraction
    throws (none) or yields only whitespace are skipped, the sync
    continues with the remaining files. -/
def extractSelected (extract : DiskFile → Option String) (disk : List DiskFile) :
    List String → List InputDoc
  | [] => []
  | p :: rest =>
    match disk.find? (fun f => f.path == p) with
    | none => extractSelected extract disk rest
    | some f =>
      match extract f with
      | none => extractSelected extract disk rest
      | some t =>
        if pyStrip t ≠ "" then mkInputDoc f t :: extractSelected extract disk rest
        else extractSelected extract disk rest

/-- The paths selected by one sync over the given ledger and disk. -/
def syncSelected (hash : List Nat → Nat) (ledger : List (String × LedgerEntry))
    (disk : List DiskFile) : List String :=
  selectNewOrChanged ledger (currentFilesOf hash disk)

/-- The new_documents list produced by one sync. -/
def syncNewDocs (hash : List Nat → Nat) (extract : DiskFile → Option String)
    (ledger : List (String × LedgerEntry)) (disk : List DiskFile) : List InputDoc :=
  extractSelected extract disk (syncSelected hash ledger disk)

/-- Everything one call of load_documents_from_folder_incremental returns
    or persists: the new documents, the final vector store, the saved
    ledger, the processing_info counts, and the list of paths it ran
    extraction on. -/
structure SyncResult where
  new_documents : List InputDoc
  vectorstore : Option (List Chunk)
  ledger : List (String × LedgerEntry)
  total_documents : Nat
  new_documents_count : Nat
  reused_documents : Nat
  extracted : List String
deriving DecidableEq

/-- utils.py load_documents_from_folder_incremental: walk and hash the
    folder, diff against the ledger, extract and chunk the selected
    files; when any document was produced, append its chunks to the
    store (or create a fresh store) and update the ledger with ALL
    current files; otherwise leave store and ledger untouched. -/
def load_documents_from_folder_incremental (split : SplitterParams → String → List String)
    (hash : List Nat → Nat) (extract : DiskFile → Option String)
    (ledger : List (String × LedgerEntry)) (store : Option (List Chunk))
    (disk : List DiskFile) : SyncResult :=
  if (syncNewDocs hash extract ledger disk).isEmpty then
    ⟨syncNewDocs hash extract ledger disk, store, ledger,
     (currentFilesOf hash disk).length,
     (syncNewDocs hash extract ledger disk).length,
     (currentFilesOf hash disk).length - (syncNewDocs hash extract ledger disk).length,
     syncSelected hash ledger disk⟩
  else
    ⟨syncNewDocs hash extract ledger disk,
     some (store.getD [] ++
       create_optimized_chunks_for_large_docs split (syncNewDocs hash extract ledger disk)),
     dictUpdate ledger (currentFilesOf hash disk),
     (currentFilesOf hash disk).length,
     (syncNewDocs hash extract ledger disk).length,
     (currentFilesOf hash disk).length - (syncNewDocs hash extract ledger disk).length,
     syncSelected hash ledger disk⟩

/-- Running the sync twice in a row on an unchanged folder. -/
def sync_twice (split : SplitterParams → String → List String) (hash : List Nat → Nat)
    (extract : DiskFile → Option String) (ledger : List (String × LedgerEntry))
    (store : Option (List Chunk)) (disk : List DiskFile) : SyncResult × SyncResult :=
  let r1 := load_documents_from_folder_incremental split hash extract ledger store disk
  (r1, load_documents_from_folder_incremental split hash extract r1.ledger r1.vectorstore disk)

/-- A file arriving through the upload intake: its name, the bytes
    written to the corpus folder, and the result of extracting text from
    the saved file (none when extraction throws). -/
structure UploadedFile where
  name : String
  content : List Nat
  extracted : Option String
deriving DecidableEq

/-- The processed_documents list of process_uploaded_files: uploads whose
    extraction yields non-whitespace text. -/
def uploadDocs (folder : String) : List UploadedFile → List InputDoc
  | [] => []
  | u :: rest =>
    match u.extracted with
    | none => uploadDocs folder rest
    | some t =>
      if pyStrip t ≠ "" then
        ⟨t, u.name, folder ++ "/" ++ u.name, fileExt u.name, ""⟩ :: uploadDocs folder rest
      else uploadDocs folder rest

/-- The ledger entries written by process_uploaded_files for every saved
    file, whether or not its extraction produced text. -/
def uploadLedgerEntries (hash : List Nat → Nat) (folder : String) :
    List UploadedFile → List (String × LedgerEntry)
  | [] => []
  | u :: rest =>
    (folder ++ "/" ++ u.name, ⟨hash u.content, u.name, fileExt u.name, ""⟩) ::
      uploadLedgerEntries hash folder rest

/-- What process_uploaded_files returns and persists. -/
structure UploadResult where
  processed_count : Nat
  vectorstore : Option (List Chunk)
  ledger : List (String × LedgerEntry)
deriving DecidableEq

/-- utils.py process_uploaded_files: save every upload, extract each; if
    any document was produced, chunk and add them to the store and write
    ledger entries for EVERY saved file; otherwise change nothing. -/
def process_uploaded_files (split : SplitterParams → String → List String)
    (hash : List Nat → Nat) (folder : String) (ledger : List (String × LedgerEntry))
    (store : Option (List Chunk)) (uploads : List UploadedFile) : UploadResult :=
  if (uploadDocs folder uploads).isEmpty then ⟨0, store, ledger⟩
  else
    ⟨(uploadDocs folder uploads).length,
     some (store.getD [] ++
       create_optimized_chunks_for_large_docs split (uploadDocs folder uploads)),
     dictUpdate ledger (uploadLedgerEntries hash folder uploads)⟩

/-! ## Ledger and sync lemmas -/

theorem lookupLedger_dictInsert (k : String) (v : LedgerEntry) (p : String) :
    ∀ d : List (String × LedgerEntry),
      lookupLedger (dictInsert d k v) p = if p = k then some v else lookupLedger d p := by
  intro d
  induction d with
  | nil =>
    unfold dictInsert lookupLedger
    by_cases h : k = p
    · rw [if_pos h, if_pos h.symm]
    · rw [if_neg h, if_neg (fun hp => h hp.symm)]
      rfl
  | cons kv rest ih =>
    unfold dictInsert
    by_cases hk : kv.1 = k
    · rw [if_pos hk]
      unfold lookupLedger
      by_cases hp : p = k
      · rw [if_pos hp.symm, if_pos hp]
      · rw [if_neg (fun h => hp h.symm), if_neg hp, if_neg (by rw [hk]; exact fun h => hp h.symm)]
    · rw [if_neg hk]
      unfold lookupLedger
      by_cases hp : kv.1 = p
      · rw [if_pos hp, if_pos hp, if_neg (by rw [← hp]; exact hk)]
      · rw [if_neg hp, if_neg hp, ih]

theorem dictUpdate_cons (d : List (String × LedgerEntry)) (kv : String × LedgerEntry)
    (rest : List (String × LedgerEntry)) :
    dictUpdate d (kv :: rest) = dictUpdate (dictInsert d kv.1 kv.2) rest := rfl

theorem lookupLedger_dictUpdate_not_mem (p : String) :
    ∀ (u d : List (String × LedgerEntry)), p ∉ u.map Prod.fst →
      lookupLedger (dictUpdate d u) p = lookupLedger d p := by
  intro u
  induction u with
  | nil => intro d _; rfl
  | cons kv rest ih =>
    intro d hp
    simp only [List.map_cons, List.mem_cons, not_or] at hp
    rw [dictUpdate_cons, ih _ hp.2, lookupLedger_dictInsert, if_neg hp.1]

theorem lookupLedger_dictUpdate_mem (p : String) (e : LedgerEntry) :
    ∀ (u d : List (String × LedgerEntry)), (u.map Prod.fst).Nodup → (p, e) ∈ u →
      lookupLedger (dictUpdate d u) p = some e := by
  intro u
  induction u with
  | nil => intro d _ hm; cases hm
  | cons kv rest ih =>
    intro d hnd hm
    rw [dictUpdate_cons]
    rcases List.mem_cons.mp hm with hm | hm
    · have hk : kv.1 = p := by rw [← hm]
      have hnotin : p ∉ rest.map Prod.fst := by
        simp only [List.map_cons] at hnd
        rw [← hk]
        exact (List.nodup_cons.mp hnd).1
      rw [lookupLedger_dictUpdate_not_mem p rest _ hnotin, lookupLedger_dictInsert,
        if_pos hk.symm, ← hm]
    · have hnd' : (rest.map Prod.fst).Nodup := by
        simp only [List.map_cons] at hnd
        exact (List.nodup_cons.mp hnd).2
      exact ih _ hnd' hm

theorem lookupLedger_dictInsert_isSome (d : List (String × LedgerEntry)) (k : String)
    (v : LedgerEntry) (p : String) (h : (lookupLedger d p).isSome = true) :
    (lookupLedger (dictInsert d k v) p).isSome = true := by
  rw [lookupLedger_dictInsert]
  by_cases hp : p = k
  · rw [if_pos hp]; rfl
  · rw [if_neg hp]; exact h

theorem lookupLedger_dictUpdate_isSome (p : String) :
    ∀ (u d : List (String × LedgerEntry)), (lookupLedger d p).isSome = true →
      (lookupLedger (dictUpdate d u) p).isSome = true := by
  intro u
  induction u with
  | nil => intro d h; exact h
  | cons kv rest ih =>
    intro d h
    rw [dictUpdate_cons]
    exact ih _ (lookupLedger_dictInsert_isSome d kv.1 kv.2 p h)

theorem lookupLedger_dictUpdate_isSome_of_mem (p : String) (e : LedgerEntry) :
    ∀ (u d : List (String × LedgerEntry)), (p, e) ∈ u →
      (lookupLedger (dictUpdate d u) p).isSome = true := by
  intro u
  induction u with
  | nil => intro d hm; cases hm
  | cons kv rest ih =>
    intro d hm
    rw [dictUpdate_cons]
    rcases List.mem_cons.mp hm with hm | hm
    · apply lookupLedger_dictUpdate_isSome
      rw [lookupLedger_dictInsert, ← hm, if_pos rfl]
      rfl
    · exact ih _ hm

theorem mem_currentFilesOf_of (hash : List Nat → Nat) :
    ∀ (disk : List DiskFile) (f : DiskFile), f ∈ disk →
      fileExt f.name ∈ supported_extensions →
      (f.path, mkEntry hash f) ∈ currentFilesOf hash disk := by
  intro disk
  induction disk with
  | nil => intro f hf; cases hf
  | cons g rest ih =>
    intro f hf hsupp
    rcases List.mem_cons.mp hf with hf | hf
    · subst hf
      unfold currentFilesOf
      rw [if_pos hsupp]
      exact List.mem_cons_self _ _
    · unfold currentFilesOf
      by_cases hg : fileExt g.name ∈ supported_extensions
      · rw [if_pos hg]
        exact List.mem_cons_of_mem _ (ih f hf hsupp)
      · rw [if_neg hg]
        exact ih f hf hsupp

theorem keys_currentFilesOf_sublist (hash : List Nat → Nat) :
    ∀ disk : List DiskFile,
      ((currentFilesOf hash disk).map Prod.fst).Sublist (disk.map (fun f => f.path)) := by
  intro disk
  induction disk with
  | nil => exact List.Sublist.refl _
  | cons g rest ih =>
    unfold currentFilesOf
    by_cases hg : fileExt g.name ∈ supported_extensions
    · rw [if_pos hg]
      simp only [List.map_cons]
      exact List.Sublist.cons₂ _ ih
    · rw [if_neg hg]
      simp only [List.map_cons]
      exact List.Sublist.cons _ ih

theorem nodup_keys_currentFilesOf (hash : List Nat → Nat) (disk : List DiskFile)
    (hnd : (disk.map (fun f => f.path)).Nodup) :
    ((currentFilesOf hash disk).map Prod.fst).Nodup :=
  List.Nodup.sublist (keys_currentFilesOf_sublist hash disk) hnd

theorem lookupLedger_eq_of_mem (p : String) (e : LedgerEntry) :
    ∀ l : List (String × LedgerEntry), (l.map Prod.fst).Nodup → (p, e) ∈ l →
      lookupLedger l p = some e := by
  intro l
  induction l with
  | nil => intro _ hm; cases hm
  | cons kv rest ih =>
    intro hnd hm
    unfold lookupLedger
    rcases List.mem_cons.mp hm with hm | hm
    · rw [← hm]
      rw [if_pos rfl]
    · have hne : kv.1 ≠ p := by
        intro h
        have hp : p ∈ rest.map Prod.fst := List.mem_map.mpr ⟨(p, e), hm, rfl⟩
        simp only [List.map_cons] at hnd
        rw [h] at hnd
        exact (List.nodup_cons.mp hnd).1 hp
      rw [if_neg hne]
      have hnd' : (rest.map Prod.fst).Nodup := by
        simp only [List.map_cons] at hnd
        exact (List.nodup_cons.mp hnd).2
      exact ih hnd' hm

theorem mem_selectNewOrChanged (ledger : List (String × LedgerEntry)) (p : String) :
    ∀ cur : List (String × LedgerEntry),
      (p ∈ selectNewOrChanged ledger cur ↔
        ∃ e, (p, e) ∈ cur ∧ needsReprocess ledger p e = true) := by
  intro cur
  induction cur with
  | nil =>
    constructor
    · intro h; cases h
    · rintro ⟨e, hm, _⟩; cases hm
  | cons kv rest ih =>
    unfold selectNewOrChanged
    by_cases hk : needsReprocess ledger kv.1 kv.2 = true
    · rw [if_pos hk]
      constructor
      · intro h
        rcases List.mem_cons.mp h with h | h
        · exact ⟨kv.2, by rw [h]; exact List.mem_cons_self _ _, by rw [h]; exact hk⟩
        · obtain ⟨e, hm, hr⟩ := ih.mp h
          exact ⟨e, List.mem_cons_of_mem _ hm, hr⟩
      · rintro ⟨e, hm, hr⟩
        rcases List.mem_cons.mp hm with hm | hm
        · rw [show p = kv.1 from congrArg Prod.fst hm]
          exact List.mem_cons_self _ _
        · exact List.mem_cons_of_mem _ (ih.mpr ⟨e, hm, hr⟩)
    · rw [if_neg hk]
      constructor
      · intro h
        obtain ⟨e, hm, hr⟩ := ih.mp h
        exact ⟨e, List.mem_cons_of_mem _ hm, hr⟩
      · rintro ⟨e, hm, hr⟩
        rcases List.mem_cons.mp hm with hm | hm
        · exfalso
          apply hk
          have hp : p = kv.1 := congrArg Prod.fst hm
          have he : e = kv.2 := congrArg Prod.snd hm
          rw [← hp, ← he]
          exact hr
        · exact ih.mpr ⟨e, hm, hr⟩

theorem mem_extractSelected (extract : DiskFile → Option String) (disk : List DiskFile) :
    ∀ (sel : List String) (d : InputDoc), d ∈ extractSelected extract disk sel →
      ∃ p ∈ sel, ∃ f, disk.find? (fun x => x.path == p) = some f ∧
        ∃ t, extract f = some t ∧ pyStrip t ≠ "" ∧ d = mkInputDoc f t := by
  intro sel
  induction sel with
  | nil => intro d hd; cases hd
  | cons p rest ih =>
    intro d hd
    unfold extractSelected at hd
    split at hd
    · obtain ⟨q, hq, rest'⟩ := ih d hd
      exact ⟨q, List.mem_cons_of_mem _ hq, rest'⟩
    · rename_i f hfind
      split at hd
      · obtain ⟨q, hq, rest'⟩ := ih d hd
        exact ⟨q, List.mem_cons_of_mem _ hq, rest'⟩
      · rename_i t hext
        split at hd
        · rename_i hstrip
          rcases List.mem_cons.mp hd with hd | hd
          · exact ⟨p, List.mem_cons_self _ _, f, hfind, t, hext, hstrip, hd⟩
          · obtain ⟨q, hq, rest'⟩ := ih d hd
            exact ⟨q, List.mem_cons_of_mem _ hq, rest'⟩
        · obtain ⟨q, hq, rest'⟩ := ih d hd
          exact ⟨q, List.mem_cons_of_mem _ hq, rest'⟩

theorem mem_uploadLedgerEntries (hash : List Nat → Nat) (folder : String) :
    ∀ (uploads : List UploadedFile) (u : UploadedFile), u ∈ uploads →
      (folder ++ "/" ++ u.name, (⟨hash u.content, u.name, fileExt u.name, ""⟩ : LedgerEntry)) ∈
        uploadLedgerEntries hash folder uploads := by
  intro uploads
  induction uploads with
  | nil => intro u hu; cases hu
  | cons v rest ih =>
    intro u hu
    rcases List.mem_cons.mp hu with hu | hu
    · subst hu
      exact List.mem_cons_self _ _
    · exact List.mem_cons_of_mem _ (ih u hu)

theorem selectNewOrChanged_nil_of_recorded (L : List (String × LedgerEntry)) :
    ∀ cur : List (String × LedgerEntry),
      (∀ p e, (p, e) ∈ cur → lookupLedger L p = some e) →
      selectNewOrChanged L cur = [] := by
  intro cur
  induction cur with
  | nil => intro _; rfl
  | cons kv rest ih =>
    intro h
    unfold selectNewOrChanged
    have hl : lookupLedger L kv.1 = some kv.2 := h kv.1 kv.2 (List.mem_cons_self _ _)
    have hr : needsReprocess L kv.1 kv.2 = false := by
      unfold needsReprocess
      rw [hl]
      exact bne_self_eq_false _
    rw [hr]
    simp only [Bool.false_eq_true, if_false]
    exact ih (fun p e hm => h p e (List.mem_cons_of_mem _ hm))

theorem sync_eq_empty (split : SplitterParams → String → List String)
    (hash : List Nat → Nat) (extract : DiskFile → Option String)
    (ledger : List (String × LedgerEntry)) (store : Option (List Chunk))
    (disk : List DiskFile) (h : syncNewDocs hash extract ledger disk = []) :
    load_documents_from_folder_incremental split hash extract ledger store disk =
      ⟨[], store, ledger, (currentFilesOf hash disk).length, 0,
       (currentFilesOf hash disk).length, syncSelected hash ledger disk⟩ := by
  unfold load_documents_from_folder_incremental
  rw [h]
  simp

theorem sync_eq_nonempty (split : SplitterParams → String → List String)
    (hash : List Nat → Nat) (extract : DiskFile → Option String)
    (ledger : List (String × LedgerEntry)) (store : Option (List Chunk))
    (disk : List DiskFile) (h : syncNewDocs hash extract ledger disk ≠ []) :
    load_documents_from_folder_incremental split hash extract ledger store disk =
      ⟨syncNewDocs hash extract ledger disk,
       some (store.getD [] ++
         create_optimized_chunks_for_large_docs split (syncNewDocs hash extract ledger disk)),
       dictUpdate ledger (currentFilesOf hash disk),
       (currentFilesOf hash disk).length,
       (syncNewDocs hash extract ledger disk).length,
       (currentFilesOf hash disk).length - (syncNewDocs hash extract ledger disk).length,
       syncSelected hash ledger disk⟩ := by
  unfold load_documents_from_folder_incremental
  rw [if_neg (by simp [h])]

theorem sync_new_documents_eq (split : SplitterParams → String → List String)
    (hash : List Nat → Nat) (extract : DiskFile → Option String)
    (ledger : List (String × LedgerEntry)) (store : Option (List Chunk))
    (disk : List DiskFile) :
    (load_documents_from_folder_incremental split hash extract ledger store disk).new_documents =
      syncNewDocs hash extract ledger disk := by
  unfold load_documents_from_folder_incremental
  split <;> rfl

theorem sync_extracted_eq (split : SplitterParams → String → List String)
    (hash : List Nat → Nat) (extract : DiskFile → Option String)
    (ledger : List (String × LedgerEntry)) (store : Option (List Chunk))
    (disk : List DiskFile) :
    (load_documents_from_folder_incremental split hash extract ledger store disk).extracted =
      selectNewOrChanged ledger (currentFilesOf hash disk) := by
  unfold load_documents_from_folder_incremental
  split <;> rfl

theorem currentFilesOf_set_mtime (hash : List Nat → Nat) (g : DiskFile → Nat) :
    ∀ disk : List DiskFile,
      currentFilesOf hash (disk.map (fun x => ⟨x.path, x.name, x.relFolder, x.content, g x⟩)) =
        currentFilesOf hash disk := by
  intro disk
  induction disk with
  | nil => rfl
  | cons f rest ih =>
    simp only [List.map_cons]
    unfold currentFilesOf
    by_cases h : fileExt f.name ∈ supported_extensions
    · rw [if_pos h, if_pos h, ih]
      rfl
    · rw [if_neg h, if_neg h, ih]

/-- C1: a file with a supported extension is selected for re-extraction
    and re-chunking iff its path is absent from the ledger or the hash of
    its current bytes differs from the recorded hash; the sync extracts
    exactly the selected paths; changing only modification times never
    changes the selection, since the hash is computed from the bytes
    alone; and (for a collision-free digest) changing the bytes of a
    recorded file always selects it. -/
theorem C1_change_detection (split : SplitterParams → String → List String)
    (hash : List Nat → Nat) (extract : DiskFile → Option String)
    (ledger : List (String × LedgerEntry)) (store : Option (List Chunk))
    (disk : List DiskFile) (f : DiskFile)
    (hnd : (disk.map (fun g => g.path)).Nodup) (hf : f ∈ disk)
    (hsupp : fileExt f.name ∈ supported_extensions) :
    ((load_documents_from_folder_incremental split hash extract ledger store disk).extracted =
        selectNewOrChanged ledger (currentFilesOf hash disk)) ∧
    (f.path ∈ selectNewOrChanged ledger (currentFilesOf hash disk) ↔
       lookupLedger ledger f.path = none ∨
         ∃ e, lookupLedger ledger f.path = some e ∧ e.hash ≠ hash f.content) ∧
    (∀ g : DiskFile → Nat,
       selectNewOrChanged ledger (currentFilesOf hash
           (disk.map (fun x => ⟨x.path, x.name, x.relFolder, x.content, g x⟩))) =
         selectNewOrChanged ledger (currentFilesOf hash disk)) ∧
    (∀ (e : LedgerEntry) (oldContent : List Nat), Function.Injective hash →
       lookupLedger ledger f.path = some e → e.hash = hash oldContent →
       f.content ≠ oldContent →
       f.path ∈ selectNewOrChanged ledger (currentFilesOf hash disk)) := by
  have hcur : (f.path, mkEntry hash f) ∈ currentFilesOf hash disk :=
    mem_currentFilesOf_of hash disk f hf hsupp
  have hknd : ((currentFilesOf hash disk).map Prod.fst).Nodup :=
    nodup_keys_currentFilesOf hash disk hnd
  have hiff : f.path ∈ selectNewOrChanged ledger (currentFilesOf hash disk) ↔
      lookupLedger ledger f.path = none ∨
        ∃ e, lookupLedger ledger f.path = some e ∧ e.hash ≠ hash f.content := by
    rw [mem_selectNewOrChanged]
    constructor
    · rintro ⟨e, hm, hr⟩
      have h1 : lookupLedger (currentFilesOf hash disk) f.path = some e :=
        lookupLedger_eq_of_mem _ _ _ hknd hm
      have h2 : lookupLedger (currentFilesOf hash disk) f.path = some (mkEntry hash f) :=
        lookupLedger_eq_of_mem _ _ _ hknd hcur
      rw [h1] at h2
      have he : e = mkEntry hash f := Option.some.inj h2
      subst he
      unfold needsReprocess at hr
      cases hl : lookupLedger ledger f.path with
      | none => exact Or.inl rfl
      | some e0 =>
        rw [hl] at hr
        exact Or.inr ⟨e0, rfl, bne_iff_ne.mp hr⟩
    · intro h
      refine ⟨mkEntry hash f, hcur, ?_⟩
      unfold needsReprocess
      cases hl : lookupLedger ledger f.path with
      | none => rfl
      | some e0 =>
        rcases h with h | ⟨e, he, hne⟩
        · rw [hl] at h; exact Option.noConfusion h
        · rw [hl] at he
          have he0 : e0 = e := Option.some.inj he
          rw [he0]
          exact bne_iff_ne.mpr hne
  refine ⟨sync_extracted_eq split hash extract ledger store disk, hiff, ?_, ?_⟩
  · intro g
    rw [currentFilesOf_set_mtime]
  · intro e oldContent hinj hl he hneq
    apply hiff.mpr
    refine Or.inr ⟨e, hl, ?_⟩
    intro hEq
    exact hneq (hinj (he.symm.trans hEq)).symm

/-- A concrete corpus file for witnesses. -/
def wFile : DiskFile := ⟨"sop_documents/a.pdf", "a.pdf", ".", [1, 2, 3], 100⟩

/-- A toy injective-looking digest standing in for MD5 in witnesses. -/
def cHash : List Nat → Nat := fun l => l.foldl (fun a b => a * 256 + b + 1) 0

/-- Witness for C1_change_detection: a file absent from an empty ledger
    is selected. -/
theorem C1_change_detection_witness :
    (([wFile] : List DiskFile).map (fun g => g.path)).Nodup ∧ wFile ∈ [wFile] ∧
      fileExt wFile.name ∈ supported_extensions ∧
      wFile.path ∈ selectNewOrChanged [] (currentFilesOf cHash [wFile]) :=
  ⟨by decide, by decide, by decide,
   (C1_change_detection witSplit cHash (fun _ => some "text") [] none [wFile] wFile
     (by decide) (by decide) (by decide)).2.1.mpr (Or.inl rfl)⟩

/-- A corpus file whose extraction succeeds. -/
def cGoodFile : DiskFile := ⟨"sop_documents/good.txt", "good.txt", ".", [104, 105], 10⟩

/-- A corpus file whose extraction yields only whitespace. -/
def cBadFile : DiskFile := ⟨"sop_documents/bad.txt", "bad.txt", ".", [32], 11⟩

/-- A concrete extractor: real text for the good file, whitespace for
    everything else. -/
def cExtract : DiskFile → Option String :=
  fun f => if f.path = "sop_documents/good.txt" then some "hello world" else some "   "

/-- C2 counterexample: with one successfully processed file in the same
    sync, a file whose extraction yields only whitespace is selected,
    produces no document, and yet RECEIVES a ledger entry, so it will not
    be retried on the next sync; the claim says it is not added to the
    ledger. -/
theorem C2_counterexample :
    cExtract cBadFile = some "   " ∧ pyStrip "   " = "" ∧
      cBadFile.path ∈
        (load_documents_from_folder_incremental witSplit cHash cExtract [] none
          [cGoodFile, cBadFile]).extracted ∧
      (lookupLedger
        (load_documents_from_folder_incremental witSplit cHash cExtract [] none
          [cGoodFile, cBadFile]).ledger cBadFile.path).isSome = true :=
  ⟨by decide, by decide, by decide, by decide⟩

/-- C2 (amended): a selected file whose extraction throws or yields only
    whitespace contributes no document; when NO selected file is
    successfully processed the ledger is left untouched, so all selected
    files are retried next sync; but when at least one document is
    produced, the sync writes ledger entries for ALL currently scanned
    files — including the skipped ones, which are therefore not retried;
    the upload path likewise writes ledger entries for every saved
    upload whenever at least one upload produced text. -/
theorem C2_ledger_update (split : SplitterParams → String → List String)
    (hash : List Nat → Nat) (extract : DiskFile → Option String)
    (ledger : List (String × LedgerEntry)) (store : Option (List Chunk))
    (disk : List DiskFile) (folder : String) (uLedger : List (String × LedgerEntry))
    (uStore : Option (List Chunk)) (uploads : List UploadedFile)
    (hnd : (disk.map (fun g => g.path)).Nodup) :
    ((load_documents_from_folder_incremental split hash extract ledger store disk).new_documents =
        [] →
       (load_documents_from_folder_incremental split hash extract ledger store disk).ledger =
         ledger) ∧
    ((load_documents_from_folder_incremental split hash extract ledger store disk).new_documents ≠
        [] →
       (∀ p e, (p, e) ∈ currentFilesOf hash disk →
          lookupLedger
            (load_documents_from_folder_incremental split hash extract ledger store disk).ledger
            p = some e) ∧
       (∀ p, p ∉ (currentFilesOf hash disk).map Prod.fst →
          lookupLedger
            (load_documents_from_folder_incremental split hash extract ledger store disk).ledger
            p = lookupLedger ledger p)) ∧
    (∀ f ∈ disk, (∀ t, extract f = some t → pyStrip t = "") →
       ∀ d ∈ (load_documents_from_folder_incremental split hash extract ledger store
           disk).new_documents,
         d.file_path ≠ f.path) ∧
    (uploadDocs folder uploads = [] →
       (process_uploaded_files split hash folder uLedger uStore uploads).ledger = uLedger) ∧
    (uploadDocs folder uploads ≠ [] →
       ∀ u ∈ uploads,
         (lookupLedger (process_uploaded_files split hash folder uLedger uStore uploads).ledger
             (folder ++ "/" ++ u.name)).isSome = true) := by
  refine ⟨?_, ?_, ?_, ?_, ?_⟩
  · intro h
    rw [sync_new_documents_eq] at h
    rw [sync_eq_empty split hash extract ledger store disk h]
  · intro hne
    rw [sync_new_documents_eq] at hne
    rw [sync_eq_nonempty split hash extract ledger store disk hne]
    constructor
    · intro p e hm
      exact lookupLedger_dictUpdate_mem p e _ ledger
        (nodup_keys_currentFilesOf hash disk hnd) hm
    · intro p hp
      exact lookupLedger_dictUpdate_not_mem p _ ledger hp
  · intro f hf hbad d hd heq
    rw [sync_new_documents_eq] at hd
    obtain ⟨p, hp, f', hfind, t, hext, hstrip, hdEq⟩ :=
      mem_extractSelected extract disk _ d hd
    have hf'mem : f' ∈ disk := List.mem_of_find?_eq_some hfind
    have hf'path : f'.path = p := by
      have hb := List.find?_some hfind
      exact eq_of_beq hb
    have hdfp : d.file_path = f'.path := by rw [hdEq]; rfl
    have hff : f' = f :=
      List.inj_on_of_nodup_map hnd hf'mem hf (hdfp.symm.trans heq)
    rw [hff] at hext
    exact hstrip (hbad t hext)
  · intro h
    unfold process_uploaded_files
    rw [h]
    rfl
  · intro hne u hu
    unfold process_uploaded_files
    rw [if_neg (by simpa [List.isEmpty_iff] using hne)]
    exact lookupLedger_dictUpdate_isSome_of_mem _ _ _ _
      (mem_uploadLedgerEntries hash folder uploads u hu)

/-- Witness for C2_ledger_update: after a sync with one good and one
    whitespace file, the whitespace file has a concrete ledger entry. -/
theorem C2_ledger_update_witness :
    (([cGoodFile, cBadFile] : List DiskFile).map (fun g => g.path)).Nodup ∧
      (load_documents_from_folder_incremental witSplit cHash cExtract [] none
        [cGoodFile, cBadFile]).new_documents ≠ [] ∧
      lookupLedger
        (load_documents_from_folder_incremental witSplit cHash cExtract [] none
          [cGoodFile, cBadFile]).ledger "sop_documents/bad.txt" =
        some ⟨33, "bad.txt", ".txt", "."⟩ :=
  ⟨by decide, by decide,
   ((C2_ledger_update witSplit cHash cExtract [] none [cGoodFile, cBadFile]
       "sop_documents" [] none [] (by decide)).2.1 (by decide)).1
     "sop_documents/bad.txt" ⟨33, "bad.txt", ".txt", "."⟩ (by decide)⟩

/-- C5 counterexample: a corpus whose only file extracts to whitespace:
    the first sync selects it, produces nothing and leaves the ledger
    untouched, so the SECOND sync selects and extracts it again — the
    claim says the second call selects no file and does zero extraction
    work. -/
theorem C5_counterexample :
    cExtract cBadFile = some "   " ∧ pyStrip "   " = "" ∧
      (sync_twice witSplit cHash cExtract [] none [cBadFile]).2.extracted =
        ["sop_documents/bad.txt"] :=
  ⟨by decide, by decide, by decide⟩

/-- C5 (amended): when the first sync either selects no file or produces
    at least one document, the second sync over the unchanged folder
    selects nothing, extracts nothing, leaves ledger and store unchanged
    and reports new_documents = 0 with reused equal to the total count;
    the exception is a first sync all of whose selected files failed
    extraction, which are selected and re-extracted again. -/
theorem C5_second_sync (split : SplitterParams → String → List String)
    (hash : List Nat → Nat) (extract : DiskFile → Option String)
    (ledger : List (String × LedgerEntry)) (store : Option (List Chunk))
    (disk : List DiskFile)
    (hnd : (disk.map (fun g => g.path)).Nodup)
    (hok : (sync_twice split hash extract ledger store disk).1.new_documents ≠ [] ∨
           selectNewOrChanged ledger (currentFilesOf hash disk) = []) :
    (sync_twice split hash extract ledger store disk).2.extracted = [] ∧
    (sync_twice split hash extract ledger store disk).2.new_documents = [] ∧
    (sync_twice split hash extract ledger store disk).2.ledger =
      (sync_twice split hash extract ledger store disk).1.ledger ∧
    (sync_twice split hash extract ledger store disk).2.vectorstore =
      (sync_twice split hash extract ledger store disk).1.vectorstore ∧
    (sync_twice split hash extract ledger store disk).2.new_documents_count = 0 ∧
    (sync_twice split hash extract ledger store disk).2.reused_documents =
      (sync_twice split hash extract ledger store disk).2.total_documents := by
  have h1 : (sync_twice split hash extract ledger store disk).1 =
      load_documents_from_folder_incremental split hash extract ledger store disk := rfl
  have h2 : (sync_twice split hash extract ledger store disk).2 =
      load_documents_from_folder_incremental split hash extract
        (load_documents_from_folder_incremental split hash extract ledger store disk).ledger
        (load_documents_from_folder_incremental split hash extract ledger store disk).vectorstore
        disk := rfl
  have hsel2 : selectNewOrChanged
      (load_documents_from_folder_incremental split hash extract ledger store disk).ledger
      (currentFilesOf hash disk) = [] := by
    rcases hok with hok | hok
    · rw [h1, sync_new_documents_eq] at hok
      rw [sync_eq_nonempty split hash extract ledger store disk hok]
      exact selectNewOrChanged_nil_of_recorded _ _ (fun p e hm =>
        lookupLedger_dictUpdate_mem p e _ ledger
          (nodup_keys_currentFilesOf hash disk hnd) hm)
    · have hnew1 : syncNewDocs hash extract ledger disk = [] := by
        unfold syncNewDocs syncSelected
        rw [hok]
        rfl
      rw [sync_eq_empty split hash extract ledger store disk hnew1]
      exact hok
  have hnew2 : syncNewDocs hash extract
      (load_documents_from_folder_incremental split hash extract ledger store disk).ledger
      disk = [] := by
    unfold syncNewDocs syncSelected
    rw [hsel2]
    rfl
  rw [h2, h1, sync_eq_empty split hash extract _ _ disk hnew2]
  exact ⟨hsel2, rfl, rfl, rfl, rfl, rfl⟩

/-- Witness for C5_second_sync: one successfully processed file, second
    sync is a no-op. -/
theorem C5_second_sync_witness :
    (([cGoodFile] : List DiskFile).map (fun g => g.path)).Nodup ∧
      (sync_twice witSplit cHash cExtract [] none [cGoodFile]).1.new_documents ≠ [] ∧
      (sync_twice witSplit cHash cExtract [] none [cGoodFile]).2.extracted = [] ∧
      (sync_twice witSplit cHash cExtract [] none [cGoodFile]).2.new_documents = [] ∧
      (sync_twice witSplit cHash cExtract [] none [cGoodFile]).2.ledger =
        (sync_twice witSplit cHash cExtract [] none [cGoodFile]).1.ledger ∧
      (sync_twice witSplit cHash cExtract [] none [cGoodFile]).2.vectorstore =
        (sync_twice witSplit cHash cExtract [] none [cGoodFile]).1.vectorstore ∧
      (sync_twice witSplit cHash cExtract [] none [cGoodFile]).2.new_documents_count = 0 ∧
      (sync_twice witSplit cHash cExtract [] none [cGoodFile]).2.reused_documents =
        (sync_twice witSplit cHash cExtract [] none [cGoodFile]).2.total_documents := by
  have h := C5_second_sync witSplit cHash cExtract [] none [cGoodFile]
    (by decide) (Or.inl (by decide))
  exact ⟨by decide, by decide, h.1, h.2.1, h.2.2.1, h.2.2.2.1, h.2.2.2.2.1, h.2.2.2.2.2⟩

end AIDoc
